import Mathlib

/-!
Verification development for the Orange "Data Table" widget
(`Orange/OrangeWidgets/Data/OWDataTable.py`) and the distributions facade
(`orange/Orange/statistics/distributions.py`).

The Python code is shallowly embedded: cell values become `Option ℚ`
(`none` models an Orange "special"/missing value), Qt item roles become an
inductive type, Python dicts become association lists, and the widget's
mutable per-connection state becomes explicit state passing.
-/

namespace OWDataTable

/-- Cell values of the data table.  `none` models an Orange special
(missing) value, for which `val.isSpecial()` is true; `some q` models a
present numeric value. -/
abbrev Value := Option ℚ

/-- Python `sys.maxint` on a 64-bit platform (2 to the 63rd minus 1):
the sentinel sort key that `ExampleTableModel.sort` assigns to missing
values. -/
def sysMaxint : ℚ := 9223372036854775807

/-- Sort key of one cell, from `ExampleTableModel.sort`:
`t[0] if not t[0].isSpecial() else sys.maxint`. -/
def sortKey (v : Value) : ℚ := v.getD sysMaxint

/-! Association lists model Python dicts. -/

/-- Dict lookup: the value stored under key `k`, if any. -/
def alookup {κ β : Type} [DecidableEq κ] (k : κ) : List (κ × β) → Option β
  | [] => none
  | (k', v) :: rest => if k' = k then some v else alookup k rest

/-- Dict `pop`: remove the entry stored under key `k`. -/
def eraseKey {κ β : Type} [DecidableEq κ] (k : κ) : List (κ × β) → List (κ × β)
  | [] => []
  | p :: rest => if p.1 = k then eraseKey k rest else p :: eraseKey k rest

/-- Dict assignment `d[k] = v`. -/
def insertKey {κ β : Type} [DecidableEq κ] (k : κ) (v : β) (l : List (κ × β)) :
    List (κ × β) :=
  (k, v) :: eraseKey k l

/-! The feature descriptors of a domain. -/

/-- Kind of an `Orange.feature.Descriptor`: discrete, continuous
(`Orange.feature.Continuous`), or other. -/
inductive VarKind : Type
  | discrete
  | continuous
  | other
deriving DecidableEq, Repr

/-- A feature descriptor (column descriptor) of the dataset's domain. -/
structure Variable : Type where
  name : String
  kind : VarKind
deriving DecidableEq, Repr

/-- True when the feature is an instance of `Orange.feature.Continuous`. -/
def Variable.isContinuous (a : Variable) : Bool :=
  match a.kind with
  | VarKind.continuous => true
  | _ => false

/-- Per-column role tags, `Attribute, ClassVar, ClassVars, Meta = range(4)`
in `ExampleTableModel`. -/
inductive TableRole : Type
  | Attribute
  | ClassVar
  | ClassVars
  | Meta
deriving DecidableEq, Repr

/-- An RGB color triple, modelling `QColor`. -/
abbrev Color := Nat × Nat × Nat

/-- One entry of the `DomainBasicAttrStat` container: the cached statistics
(here only the fields the widget reads) of one continuous feature. -/
structure BasicAttrStat : Type where
  min : ℚ
  max : ℚ
deriving DecidableEq, Repr

/-- Qt item roles the model's `data` method can be queried with.  The six
named constructors are the recognized roles; `other key` models any
unrecognized role (not in `_recognizedRoles`). -/
inductive Role : Type
  | display
  | background
  | bar
  | value
  | classValue
  | varDesc
  | other (key : Nat)
deriving DecidableEq, Repr

/-- Results `ExampleTableModel.data` can return (inside its `QVariant`). -/
inductive CellData : Type
  | text (s : String)
  | bg (c : Color)
  | barFrac (q : ℚ)
  | rawVal (v : Value)
  | classVal (v : Value)
  | varData (a : Variable)
  | overlay (v : Nat)
deriving DecidableEq, Repr

/-- Python `str(val)` for a cell value (display-role rendering).  Missing
values render as `"?"`, present values by their numeral. -/
def showValue : Value → String
  | none => "?"
  | some q => toString q

/-- The `ExampleTableModel` adapter state.  `examples` holds, for each
dataset row, the cell values aligned with the concatenated column list;
`sorted_map` is the row-order permutation; `otherData` is the auxiliary
overlay store `_other_data` keyed by `(row, column, role)`. -/
structure ExampleTableModel : Type where
  examples : List (List Value)
  attributes : List Variable
  class_var : Option Variable
  class_vars : List Variable
  metas : List Variable
  dist : List (Option BasicAttrStat)
  sorted_map : List Nat
  otherData : List ((Nat × Nat × Nat) × Nat)
deriving DecidableEq, Repr

namespace ExampleTableModel

/-- `self.all_attrs`: attributes, then the class variable (if any), then
the auxiliary class variables, then the metas. -/
def all_attrs (m : ExampleTableModel) : List Variable :=
  m.attributes ++ m.class_var.toList ++ m.class_vars ++ m.metas

/-- `self.table_roles`: one role tag per display column, parallel to
`all_attrs`. -/
def table_roles (m : ExampleTableModel) : List TableRole :=
  List.replicate m.attributes.length TableRole.Attribute ++
    (if m.class_var.isSome then [TableRole.ClassVar] else []) ++
    List.replicate m.class_vars.length TableRole.ClassVars ++
    List.replicate m.metas.length TableRole.Meta

/-- `self._continuous_mask`: whether the feature at each column is
continuous. -/
def continuous_mask (m : ExampleTableModel) : List Bool :=
  m.all_attrs.map Variable.isContinuous

/-- `self._meta_mask`. -/
def meta_mask (m : ExampleTableModel) : List Bool :=
  m.table_roles.map (fun r => decide (r = TableRole.Meta))

/-- The `role_to_color` mapping: no color for ordinary attributes, the
fixed gray `QColor(160,160,160)` for class columns, and the fixed tan
`QColor(220,220,200)` for meta columns. -/
def roleColor : TableRole → Option Color
  | TableRole.Attribute => none
  | TableRole.ClassVar => some (160, 160, 160)
  | TableRole.ClassVars => some (160, 160, 160)
  | TableRole.Meta => some (220, 220, 200)

/-- `self.background_colors`. -/
def background_colors (m : ExampleTableModel) : List (Option Color) :=
  m.table_roles.map roleColor

/-- `rowCount` for the root parent: `len(self.examples)`. -/
def rowCount (m : ExampleTableModel) : Nat := m.examples.length

/-- `columnCount` for the root parent: `len(self.all_attrs)`. -/
def columnCount (m : ExampleTableModel) : Nat := m.all_attrs.length

/-- `example.get_class()`: with our row layout the class cell sits right
after the ordinary attributes. -/
def rowClass (m : ExampleTableModel) (ex : List Value) : Value :=
  ex.getD m.attributes.length none

/-- The `data` method.  An unrecognized role is answered from the overlay
store keyed by the raw view row; every recognized role first resolves the
view row through `sorted_map` and reads the example and the addressed
feature.  Out-of-range accesses, which would raise in Python, yield
`none`. -/
def data (m : ExampleTableModel) (row col : Nat) (role : Role) :
    Option CellData :=
  match role with
  | Role.other key => (alookup (row, col, key) m.otherData).map CellData.overlay
  | _ =>
    match m.sorted_map.get? row, m.all_attrs.get? col with
    | some drow, some attr =>
      match m.examples.get? drow with
      | some ex =>
        match ex.get? col with
        | some val =>
          match role with
          | Role.display => some (CellData.text (showValue val))
          | Role.background =>
            (m.background_colors.getD col none).map CellData.bg
          | Role.bar =>
            if m.continuous_mask.getD col false = true then
              match val with
              | none => none
              | some x =>
                match m.dist.get? col with
                | some (some d) =>
                  some (CellData.barFrac
                    ((x - d.min) / (if d.max - d.min = 0 then 1 else d.max - d.min)))
                | _ => none
            else none
          | Role.value => some (CellData.rawVal val)
          | Role.classValue =>
            if m.class_var.isSome then
              some (CellData.classVal (m.rowClass ex))
            else none
          | Role.varDesc => some (CellData.varData attr)
          | Role.other _ => none
        | none => none
      | none => none
    | _, _ => none

/-- The `setData` method: stores the variant into `_other_data` under the
raw `(row, column, role)` key. -/
def setData (m : ExampleTableModel) (row col : Nat) (roleKey : Nat) (v : Nat) :
    ExampleTableModel :=
  { m with otherData := insertKey (row, col, roleKey) v m.otherData }

end ExampleTableModel

/-! The `sort` method: enumerate `(value, index)` pairs, replace missing
values by the `sys.maxint` sentinel, and stably sort ascending or, for
`reverse=True`, descending. -/

/-- The comparison under which the stable sort runs: ascending compares
sort keys with `≤`; descending (Python `reverse=True`) compares them
with the reversed order, ties keeping original order either way. -/
def sortRel (ascending : Bool) (a b : Value × Nat) : Prop :=
  match ascending with
  | true => sortKey a.1 ≤ sortKey b.1
  | false => sortKey b.1 ≤ sortKey a.1

instance sortRelDecidable (ascending : Bool) : DecidableRel (sortRel ascending) :=
  fun a b =>
    match ascending with
    | true => inferInstanceAs (Decidable (sortKey a.1 ≤ sortKey b.1))
    | false => inferInstanceAs (Decidable (sortKey b.1 ≤ sortKey a.1))

instance sortRelTotal (ascending : Bool) :
    IsTotal (Value × Nat) (sortRel ascending) where
  total a b := by
    cases ascending
    · exact le_total (sortKey b.1) (sortKey a.1)
    · exact le_total (sortKey a.1) (sortKey b.1)

instance sortRelTrans (ascending : Bool) :
    IsTrans (Value × Nat) (sortRel ascending) where
  trans a b c hab hbc := by
    cases ascending
    · exact le_trans hbc hab
    · exact le_trans hab hbc

/-- The `(ex[attr], i)` pair list built by `sort`. -/
def sortPairs (cells : List Value) : List (Value × Nat) :=
  cells.enum.map (fun p => (p.2, p.1))

/-- The sorted pair list: Python `sorted(values, key=..., reverse=...)`
is a stable sort, modelled by stable insertion sort under `sortRel`. -/
def sortedValues (cells : List Value) (ascending : Bool) : List (Value × Nat) :=
  List.insertionSort (sortRel ascending) (sortPairs cells)

/-- The new row-order permutation, `[v[1] for v in values]`. -/
def sortedMapFor (cells : List Value) (ascending : Bool) : List Nat :=
  (sortedValues cells ascending).map (fun v => v.2)

/-- The cell values of one display column, in dataset row order
(`[(ex[attr], i) for i, ex in enumerate(self.examples)]` without the
indices). -/
def columnCells (m : ExampleTableModel) (col : Nat) : List Value :=
  m.examples.map (fun ex => ex.getD col none)

/-- The `sort` method: recompute `sorted_map` from the addressed column. -/
def ExampleTableModel.sort (m : ExampleTableModel) (col : Nat)
    (ascending : Bool) : ExampleTableModel :=
  { m with sorted_map := sortedMapFor (columnCells m col) ascending }

/-! Clipboard export (`TableViewWithCopy.copy_selection_to_clipboard`).
Python's `csv.writer` with the `excel` dialect uses a comma delimiter, the
`excel-tab` dialect a tab delimiter; both minimally quote a field that
contains the delimiter, the quote character, or a line-break character,
doubling embedded quote characters, and terminate each written row with
`"\r\n"`.  Byte strings are modelled as `List Char`. -/

/-- Whether the `QUOTE_MINIMAL` convention must quote this field. -/
def needsQuote (delim : Char) (cs : List Char) : Bool :=
  cs.any (fun c => decide (c = delim ∨ c = '"' ∨ c = '\r' ∨ c = '\n'))

/-- Double every embedded quote character. -/
def doubleQuotes : List Char → List Char
  | [] => []
  | c :: rest =>
    if c = '"' then '"' :: '"' :: doubleQuotes rest
    else c :: doubleQuotes rest

/-- Render one field under the dialect's minimal-quoting convention. -/
def quoteField (delim : Char) (cs : List Char) : List Char :=
  if needsQuote delim cs then '"' :: (doubleQuotes cs ++ ['"'])
  else cs

/-- Join chunks with a single separator character between them. -/
def joinSep (d : Char) : List (List Char) → List Char
  | [] => []
  | [cs] => cs
  | cs :: rest => cs ++ d :: joinSep d rest

/-- One `writerow` call: the quoted fields joined by the delimiter and
terminated by `"\r\n"`. -/
def writeRow (delim : Char) (cells : List (List Char)) : List Char :=
  joinSep delim (cells.map (quoteField delim)) ++ ['\r', '\n']

/-- The dialect's full output over all written rows. -/
def writerBytes (delim : Char) (lines : List (List (List Char))) : List Char :=
  (lines.map (writeRow delim)).flatten

/-- The display text read for one cell during clipboard export:
`unicode(index.data(Qt.DisplayRole).toString())`, where an invalid variant
renders as the empty string. -/
def displayTextAt (m : ExampleTableModel) (row col : Nat) : String :=
  match m.data row col Role.display with
  | some (CellData.text s) => s
  | _ => ""

/-- The per-row cell text lists assembled by the copy loop: for every
selected row and every display column in order, the display text. -/
def selectionLines (m : ExampleTableModel) (rows : List Nat) :
    List (List (List Char)) :=
  rows.map (fun r =>
    (List.range m.columnCount).map (fun c => (displayTextAt m r c).toList))

/-- The three representations published together onto the clipboard:
`text/csv`, `text/tab-separated-values`, and `text/plain` (the latter set
from the same tab-separated byte string). -/
structure ClipboardMime : Type where
  csv : List Char
  tsv : List Char
  plain : List Char
deriving DecidableEq, Repr

/-- The `copy_selection_to_clipboard` method over the selected rows. -/
def copy_selection_to_clipboard (m : ExampleTableModel) (rows : List Nat) :
    ClipboardMime :=
  let lines := selectionLines m rows
  let csv_lines := writerBytes ',' lines
  let tsv_lines := writerBytes '\t' lines
  { csv := csv_lines, tsv := tsv_lines, plain := tsv_lines }

/-- Fuel-driven worker for `splitCRLF`; the fuel only serves structural
termination and is irrelevant once it covers the input length. -/
def splitCRLFGo : Nat → List Char → List (List Char)
  | _, [] => [[]]
  | 0, cs => [cs]
  | fuel + 1, c :: rest =>
    if c = '\r' ∧ rest.head? = some '\n' then [] :: splitCRLFGo fuel rest.tail
    else
      match splitCRLFGo fuel rest with
      | [] => [[c]]
      | l :: ls => (c :: l) :: ls

/-- Split a byte string on the `"\r\n"` terminator (used to state that the
dialect outputs agree line by line). -/
def splitCRLF (cs : List Char) : List (List Char) :=
  splitCRLFGo cs.length cs

/-! Selection and commit (`OWDataTable.getCurrentSelection`,
`OWDataTable.commitIf`, `OWDataTable.commit`). -/

/-- One open tab as the orchestrator sees it: the bound adapter plus the
view rows of the current selection (`selectionModel().selectedIndexes()`
reduced to their rows). -/
structure TabState : Type where
  model : ExampleTableModel
  selectedViewRows : List Nat
deriving DecidableEq, Repr

/-- The orchestrator state the selection/commit path reads and writes:
the active tab (if any), the auto-commit flag, the pending-change flag,
the send-button enabled state, and the value last sent on each output
channel (`none` = nothing sent yet, `some none` = an explicit `None`). -/
structure OWState : Type where
  currentTab : Option TabState
  autoCommit : Bool
  selectionChangedFlag : Bool
  sendEnabled : Bool
  selectedOut : Option (Option (List (List Value)))
  otherOut : Option (Option (List (List Value)))
deriving DecidableEq, Repr

/-- `getCurrentSelection`: the view's selected indexes mapped through the
adapter's `sorted_map`, deduplicated and sorted
(`sorted(set([model.sorted_map[ind.row()] for ind in new]))`). -/
def getCurrentSelection (t : TabState) : List Nat :=
  List.insertionSort (fun a b => a ≤ b)
    ((t.selectedViewRows.map (fun r => t.model.sorted_map.getD r 0)).dedup)

/-- `ExampleTable.select(selection)`: the rows whose mask entry is
non-zero. -/
def selectNonzero {α : Type} (examples : List α) (mask : List Nat) : List α :=
  ((examples.zip mask).filter (fun p => decide (p.2 ≠ 0))).map (fun p => p.1)

/-- `ExampleTable.select(selection, 0)`: the rows whose mask entry equals
the given value. -/
def selectEq {α : Type} (examples : List α) (mask : List Nat) (v : Nat) :
    List α :=
  ((examples.zip mask).filter (fun p => decide (p.2 = v))).map (fun p => p.1)

/-- The `commit` method: build the 0/1 membership mask from the current
selection, emit the selected sub-dataset on "Selected Data" and its
complement on "Other Data" (sending `None` for an empty result), or send
`None` on both when there is no active tab with a bound model; finally
clear the pending-change flag. -/
def OWState.commit (s : OWState) : OWState :=
  match s.currentTab with
  | some t =>
    let model := t.model
    let selected := getCurrentSelection t
    let selection := (List.range model.examples.length).map
      (fun i => if i ∈ selected then 1 else 0)
    let dataSel := selectNonzero model.examples selection
    let dataOth := selectEq model.examples selection 0
    { s with
      selectedOut := some (if dataSel.length > 0 then some dataSel else none)
      otherOut := some (if dataOth.length > 0 then some dataOth else none)
      selectionChangedFlag := false }
  | none =>
    { s with
      selectedOut := some none
      otherOut := some none
      selectionChangedFlag := false }

/-- `bool(self.getCurrentSelection())`: false when there is no active
table (Python `None`), else non-emptiness of the selection. -/
def currentSelectionNonempty (s : OWState) : Bool :=
  match s.currentTab with
  | some t => !(getCurrentSelection t).isEmpty
  | none => false

/-- `commitIf`: commit right away under auto-commit, otherwise record the
pending change. -/
def OWState.commitIf (s : OWState) : OWState :=
  if s.autoCommit then s.commit
  else { s with selectionChangedFlag := true }

/-- `updateSelection`: re-evaluate the send-button enabled state
(`bool(self.getCurrentSelection()) and not self.autoCommit`), then
`commitIf`. -/
def OWState.updateSelection (s : OWState) : OWState :=
  OWState.commitIf
    { s with sendEnabled := currentSelectionNonempty s && !s.autoCommit }

/-! Per-connection lifecycle (`OWDataTable.dataset`).  Connection
identifiers and view instances are modelled as naturals; a fresh view is
allocated from a counter.  The four per-connection dicts (`self.data`,
`self.showMetas`, `self.id2table`, `self.table2id`) and the tab strip are
carried explicitly.  Dict accesses that would raise `KeyError` in Python
make the operation return `none`. -/

/-- A dataset as delivered on the "Data" channel. -/
abbrev Dataset := List (List Value)

/-- The `showMetas` record for one connection: the shown flag and the
recorded meta column indices. -/
structure MetaRec : Type where
  shown : Bool
  cols : List Nat
deriving DecidableEq, Repr

/-- The per-connection state of the widget. -/
structure WidgetState : Type where
  data : List (Nat × Dataset)
  showMetas : List (Nat × MetaRec)
  id2table : List (Nat × Nat)
  table2id : List (Nat × Nat)
  tabs : List Nat
  nextView : Nat
deriving DecidableEq, Repr

/-- The widget state before any connection delivered data. -/
def emptyWidget : WidgetState :=
  { data := [], showMetas := [], id2table := [], table2id := [],
    tabs := [], nextView := 0 }

/-- Tear down one connection's tab and state entries: pop the id from
`data`, `showMetas` and `id2table`, remove its view from the tab strip,
and pop the view from `table2id`.  Requires the view lookup to succeed
(Python would raise `KeyError` otherwise). -/
def WidgetState.removeConn (s : WidgetState) (id : Nat) : Option WidgetState :=
  match alookup id s.id2table with
  | some view =>
    some { s with
      data := eraseKey id s.data
      showMetas := eraseKey id s.showMetas
      tabs := s.tabs.erase view
      id2table := eraseKey id s.id2table
      table2id := eraseKey view s.table2id }
  | none => none

/-- The `dataset(data, id)` input handler.  Non-null data first tears down
any existing entry for the id, then registers the dataset and a fresh
`(True, [])` metas record, builds a fresh view, registers it in both
directions of the view-id mapping, and appends it to the tab strip.  Null
data tears down the entry, if present. -/
def WidgetState.dataset (s : WidgetState) (d : Option Dataset) (id : Nat) :
    Option WidgetState :=
  match d with
  | some table =>
    match (if (alookup id s.data).isSome then s.removeConn id else some s) with
    | none => none
    | some s1 =>
      let view := s1.nextView
      some { s1 with
        data := insertKey id table s1.data
        showMetas := insertKey id ⟨true, []⟩ s1.showMetas
        id2table := insertKey id view s1.id2table
        table2id := insertKey view id s1.table2id
        tabs := s1.tabs ++ [view]
        nextView := view + 1 }
  | none =>
    if (alookup id s.data).isSome then s.removeConn id else some s

/-- The lock-step invariant of the per-connection state: the three
id-keyed dicts share one key set, `table2id` is the exact inverse of
`id2table`, every view is below the freshness counter, the tab strip is
duplicate-free, below the counter, and carries every registered view. -/
def WidgetInv (s : WidgetState) : Prop :=
  (∀ k : Nat, (alookup k s.data).isSome ↔ (alookup k s.showMetas).isSome) ∧
  (∀ k : Nat, (alookup k s.data).isSome ↔ (alookup k s.id2table).isSome) ∧
  (∀ k v : Nat, alookup k s.id2table = some v → alookup v s.table2id = some k) ∧
  (∀ v k : Nat, alookup v s.table2id = some k → alookup k s.id2table = some v) ∧
  (∀ k v : Nat, alookup k s.id2table = some v → v < s.nextView) ∧
  (∀ v ∈ s.tabs, v < s.nextView) ∧
  s.tabs.Nodup ∧
  (∀ k v : Nat, alookup k s.id2table = some v → v ∈ s.tabs)

/-! Color dialog integration (`OWDataTable.setColors`). -/

/-- A `QColor` as returned by the color dialog. -/
structure DialogColor : Type where
  red : Nat
  green : Nat
  blue : Nat
  alpha : Nat
deriving DecidableEq, Repr

/-- The tuple `setColors` persists on acceptance:
`self.distColorRgb = (color.red(), color.green(), color.red())`. -/
def setColorsDistColorRgb (c : DialogColor) : Nat × Nat × Nat :=
  (c.red, c.green, c.red)

/-! Info box missing-value line (`OWDataTable.setInfo`). -/

/-- The percentage value interpolated into `"%.1f"`:
`len(data) and 100.*len(missData)/len(data)` — the integer `0` when the
dataset is empty, else the exact fraction. -/
def missPercent (numEx numMiss : Nat) : ℚ :=
  if numEx = 0 then 0 else 100 * (numMiss : ℚ) / (numEx : ℚ)

/-- Fixed-point rendering with one decimal digit (the `%.1f` format) for
a non-negative rational. -/
def formatFixed1 (q : ℚ) : String :=
  let n : ℤ := round (q * 10)
  toString (n / 10) ++ "." ++ toString ((n % 10).natAbs)

/-- The full text of the missing-values info line:
`'%s (%.1f%s) with missing values.' % (len(missData), pct, "%")`. -/
def infoMissText (numEx numMiss : Nat) : String :=
  toString numMiss ++ " (" ++ formatFixed1 (missPercent numEx numMiss) ++
    "%) with missing values."

/-! Spec-side predicates and concrete instances used to settle the
claims. -/

/-- A character that needs no quoting under either csv dialect and is not
a line break. -/
def isPlainChar (c : Char) : Bool :=
  decide (c ≠ ',' ∧ c ≠ '\t' ∧ c ≠ '"' ∧ c ≠ '\r' ∧ c ≠ '\n')

/-- The claimed placement policy for one sorted column: every
missing-valued output position comes after every present-valued output
position. -/
def missingAfterPresent (cells : List Value) (perm : List Nat) : Prop :=
  ∀ p ∈ List.range perm.length, ∀ q ∈ List.range perm.length,
    cells.getD (perm.getD p 0) none = none →
    cells.getD (perm.getD q 0) none ≠ none →
    q < p

instance missingAfterPresentDecidable (cells : List Value) (perm : List Nat) :
    Decidable (missingAfterPresent cells perm) := by
  unfold missingAfterPresent
  infer_instance

/-- An adapter over a dataset with a single continuous column, as the
constructor would build it (identity `sorted_map`, empty overlay). -/
def oneColModel (cells : List Value) (d : Option BasicAttrStat) :
    ExampleTableModel :=
  { examples := cells.map (fun v => [v])
    attributes := [⟨"a", VarKind.continuous⟩]
    class_var := none
    class_vars := []
    metas := []
    dist := [d]
    sorted_map := List.range cells.length
    otherData := [] }

/-- The column of Testable Property 5: values `[3, missing, 1, missing, 2]`. -/
def c3cells : List Value := [some 3, none, some 1, none, some 2]

/-- The adapter over that column. -/
def c3model : ExampleTableModel := oneColModel c3cells (some ⟨1, 3⟩)

/-- A one-row adapter whose continuous column has statistics min 0, max
10 and cell value 2.5. -/
def barModelA : ExampleTableModel := oneColModel [some (5 / 2)] (some ⟨0, 10⟩)

/-- A degenerate constant column: min = max = 2, cell value 2. -/
def barModelB : ExampleTableModel := oneColModel [some 2] (some ⟨2, 2⟩)

/-- A cell value above the recorded column maximum, giving an unclamped
fraction above 1. -/
def barModelC : ExampleTableModel := oneColModel [some 30] (some ⟨0, 10⟩)

/-- A two-row adapter with missing cells (display text `"?"`), used for
the clipboard claims. -/
def copyModel : ExampleTableModel := oneColModel [none, none] none

/-- Spec-side description of the "Selected Data" emission: the
sub-dataset of exactly the rows whose index lies in the current
selection, in dataset order. -/
def selectedSubset (t : TabState) : List (List Value) :=
  (t.model.examples.enum.filter
    (fun p => decide (p.1 ∈ getCurrentSelection t))).map Prod.snd

/-- Spec-side description of the "Other Data" emission: the complementary
sub-dataset of exactly the remaining rows, in dataset order. -/
def otherSubset (t : TabState) : List (List Value) :=
  (t.model.examples.enum.filter
    (fun p => !decide (p.1 ∈ getCurrentSelection t))).map Prod.snd

/-- A three-row tab whose view has rows 0 and 2 selected. -/
def demoTab : TabState :=
  { model := oneColModel [some 1, some 2, some 3] (some ⟨1, 3⟩)
    selectedViewRows := [0, 2] }

/-- A widget state showing `demoTab`, auto-commit off, nothing sent yet. -/
def demoState : OWState :=
  { currentTab := some demoTab
    autoCommit := false
    selectionChangedFlag := false
    sendEnabled := false
    selectedOut := none
    otherOut := none }

/-- The same widget state with auto-commit on. -/
def demoStateAuto : OWState :=
  { demoState with autoCommit := true }

end OWDataTable

namespace Distributions

/-! The distributions facade
(`orange/Orange/statistics/distributions.py`): a pure re-export layer whose
observable content is which `Orange.core` primitive each public name is
bound to. -/

/-- The `Orange.core` primitives the module imports from. -/
inductive CoreClass : Type
  | DomainContingency
  | DomainDistributions
  | DistributionList
  | ComputeDomainContingency
  | Contingency
  | BasicAttrStat
  | DomainBasicAttrStat
  | ContingencyAttrAttr
  | ContingencyClass
  | ContingencyAttrClass
  | ContingencyClassAttr
deriving DecidableEq, Repr

/-- The public names the facade exposes. -/
inductive FacadeName : Type
  | DomainContingency
  | DomainDistributions
  | DistributionList
  | ComputeDomainContingency
  | Contingency
  | BasicStatistics
  | DomainBasicStatistics
  | ContingencyVarVar
  | ContingencyClass
  | ContingencyVarClass
  | ContingencyClassVar
deriving DecidableEq, Repr

/-- The binding each public name receives in the module's `from
Orange.core import ... as ...` lines. -/
def facadeBinding : FacadeName → CoreClass
  | FacadeName.DomainContingency => CoreClass.DomainContingency
  | FacadeName.DomainDistributions => CoreClass.DomainDistributions
  | FacadeName.DistributionList => CoreClass.DistributionList
  | FacadeName.ComputeDomainContingency => CoreClass.ComputeDomainContingency
  | FacadeName.Contingency => CoreClass.Contingency
  | FacadeName.BasicStatistics => CoreClass.BasicAttrStat
  | FacadeName.DomainBasicStatistics => CoreClass.DomainBasicAttrStat
  | FacadeName.ContingencyVarVar => CoreClass.ContingencyAttrAttr
  | FacadeName.ContingencyClass => CoreClass.ContingencyAttrAttr
  | FacadeName.ContingencyVarClass => CoreClass.ContingencyAttrAttr
  | FacadeName.ContingencyClassVar => CoreClass.ContingencyAttrAttr

/-- The binding the module's own docstring documents for the four
contingency names: `Contingency` is the base of `ContingencyVarVar` (both
features are attributes) and of the class-oriented `ContingencyClass`,
which in turn is the base of `ContingencyVarClass` (feature outer, class
inner) and `ContingencyClassVar` (class outer, feature inner). -/
def documentedContingencyBinding : FacadeName → Option CoreClass
  | FacadeName.ContingencyVarVar => some CoreClass.ContingencyAttrAttr
  | FacadeName.ContingencyClass => some CoreClass.ContingencyClass
  | FacadeName.ContingencyVarClass => some CoreClass.ContingencyAttrClass
  | FacadeName.ContingencyClassVar => some CoreClass.ContingencyClassAttr
  | _ => none

end Distributions

/-! Theorems. -/

open OWDataTable

namespace OWDataTable

theorem alookup_eraseKey_self {κ β : Type} [DecidableEq κ] (k : κ)
    (l : List (κ × β)) :
    alookup k (eraseKey k l) = none := by
  induction l with
  | nil => rfl
  | cons p rest ih =>
    simp only [eraseKey]
    by_cases h : p.1 = k
    · rw [if_pos h]; exact ih
    · rw [if_neg h]; simp [alookup, h, ih]

theorem alookup_eraseKey_ne {κ β : Type} [DecidableEq κ] {k k' : κ}
    (h : k' ≠ k) (l : List (κ × β)) :
    alookup k' (eraseKey k l) = alookup k' l := by
  induction l with
  | nil => rfl
  | cons p rest ih =>
    simp only [eraseKey]
    by_cases hp : p.1 = k
    · rw [if_pos hp, ih]
      have hne : ¬ p.1 = k' := fun hh => h (hh.symm.trans hp)
      simp [alookup, hne]
    · rw [if_neg hp]
      simp [alookup, ih]

theorem alookup_insertKey_self {κ β : Type} [DecidableEq κ] (k : κ) (v : β)
    (l : List (κ × β)) :
    alookup k (insertKey k v l) = some v := by
  simp [insertKey, alookup]

theorem alookup_insertKey_ne {κ β : Type} [DecidableEq κ] {k k' : κ} (v : β)
    (h : k' ≠ k) (l : List (κ × β)) :
    alookup k' (insertKey k v l) = alookup k' l := by
  have hne : ¬ k = k' := fun hh => h hh.symm
  simp [insertKey, alookup, hne, alookup_eraseKey_ne h]

/-- C2: the facade is claimed to bind `ContingencyVarVar` to the general
variable-variable primitive and `ContingencyClass`, `ContingencyVarClass`,
`ContingencyClassVar` to three distinct class-oriented specializations.
In the code all four names are bound to the same general primitive
`Orange.core.ContingencyAttrAttr`, so the three class-oriented names
disagree with the hierarchy documented in the module's own docstring. -/
theorem c2_contingency_bindings_collapse :
    Distributions.facadeBinding Distributions.FacadeName.ContingencyVarVar =
      Distributions.CoreClass.ContingencyAttrAttr ∧
    Distributions.facadeBinding Distributions.FacadeName.ContingencyClass =
      Distributions.CoreClass.ContingencyAttrAttr ∧
    Distributions.facadeBinding Distributions.FacadeName.ContingencyVarClass =
      Distributions.CoreClass.ContingencyAttrAttr ∧
    Distributions.facadeBinding Distributions.FacadeName.ContingencyClassVar =
      Distributions.CoreClass.ContingencyAttrAttr ∧
    (Distributions.facadeBinding Distributions.FacadeName.ContingencyVarClass =
      Distributions.facadeBinding Distributions.FacadeName.ContingencyClassVar) ∧
    some (Distributions.facadeBinding Distributions.FacadeName.ContingencyClass) ≠
      Distributions.documentedContingencyBinding
        Distributions.FacadeName.ContingencyClass ∧
    some (Distributions.facadeBinding Distributions.FacadeName.ContingencyVarClass) ≠
      Distributions.documentedContingencyBinding
        Distributions.FacadeName.ContingencyVarClass ∧
    some (Distributions.facadeBinding Distributions.FacadeName.ContingencyClassVar) ≠
      Distributions.documentedContingencyBinding
        Distributions.FacadeName.ContingencyClassVar := by
  decide

/-- C4 counterexample: the claim says the stored tuple carries the red
channel into both the green and the blue slot, which at the color
(r, g, b) = (10, 20, 30) would give (10, 10, 10); the code stores
(10, 20, 10), keeping the true green channel in the green slot. -/
theorem c4_counterexample :
    setColorsDistColorRgb ⟨10, 20, 30, 255⟩ = (10, 20, 10) ∧
    setColorsDistColorRgb ⟨10, 20, 30, 255⟩ ≠ (10, 10, 10) := by
  decide

/-- C4 (amended): on acceptance the persisted tuple is
`(red, green, red)` — the red channel is carried into the blue slot only,
the green slot keeps the true green channel — so the stored tuple differs
from the true `(red, green, blue)` whenever blue differs from red. -/
theorem c4_distColorRgb_red_in_blue_slot (c : DialogColor) :
    setColorsDistColorRgb c = (c.red, c.green, c.red) ∧
    (c.blue ≠ c.red → setColorsDistColorRgb c ≠ (c.red, c.green, c.blue)) := by
  refine ⟨rfl, fun h hc => h ?_⟩
  have := congrArg (fun t : Nat × Nat × Nat => t.2.2) hc
  simpa using this.symm

/-- C4 witness: the amended theorem evaluated at the color (10, 20, 30). -/
theorem c4_witness :
    setColorsDistColorRgb ⟨10, 20, 30, 255⟩ = (10, 20, 10) ∧
    setColorsDistColorRgb ⟨10, 20, 30, 255⟩ ≠ (10, 20, 30) := by
  have h := c4_distColorRgb_red_in_blue_slot ⟨10, 20, 30, 255⟩
  exact ⟨h.1, h.2 (by decide)⟩

/-- C9: the missing-value percentage is special-cased to the integer 0
for a zero-row dataset (`len(data) and 100.*len(missData)/len(data)`), so
no division by zero occurs, the rendered line shows `0.0`, and for a
non-empty dataset the value solves `pct * total = 100 * missing`. -/
theorem c9_missing_percentage_guard :
    (∀ numMiss : Nat, missPercent 0 numMiss = 0) ∧
    infoMissText 0 0 = "0 (0.0%) with missing values." ∧
    (∀ numEx numMiss : Nat, numEx ≠ 0 →
      missPercent numEx numMiss * numEx = 100 * numMiss) := by
  have hfmt : infoMissText 0 0 = "0 (0.0%) with missing values." := by
    unfold infoMissText formatFixed1
    rw [show missPercent 0 0 = 0 from by simp [missPercent]]
    rw [show round ((0 : ℚ) * 10) = (0 : ℤ) from by norm_num]
    decide
  refine ⟨fun numMiss => by simp [missPercent], hfmt, ?_⟩
  intro numEx numMiss h
  have hq : (numEx : ℚ) ≠ 0 := Nat.cast_ne_zero.mpr h
  simp only [missPercent, h, if_false]
  field_simp

/-- C5: for a bar-role query on a continuous column with a present value
and an existing statistics entry, the returned fraction is
`(value - columnMin) / (columnMax - columnMin)` with the denominator
replaced by 1 when min equals max, so the denominator used is never zero;
a constant column with value equal to the minimum yields exactly 0, the
column min 0 / max 10 with value 5/2 yields exactly 1/4, and the value is
the raw affine expression, not clamped to the unit interval. -/
theorem c5_bar_fraction (m : ExampleTableModel) (row col drow : Nat)
    (attr : Variable) (ex : List Value) (x : ℚ) (d : BasicAttrStat)
    (h1 : m.sorted_map.get? row = some drow)
    (h2 : m.all_attrs.get? col = some attr)
    (h3 : m.examples.get? drow = some ex)
    (h4 : ex.get? col = some (some x))
    (h5 : m.continuous_mask.getD col false = true)
    (h6 : m.dist.get? col = some (some d)) :
    m.data row col Role.bar =
      some (CellData.barFrac
        ((x - d.min) / (if d.max = d.min then 1 else d.max - d.min))) ∧
    (if d.max = d.min then (1 : ℚ) else d.max - d.min) ≠ 0 ∧
    (d.max = d.min → x = d.min →
      m.data row col Role.bar = some (CellData.barFrac 0)) ∧
    (d.min = 0 → d.max = 10 → x = 5 / 2 →
      m.data row col Role.bar = some (CellData.barFrac (1 / 4))) := by
  have hdata : m.data row col Role.bar =
      some (CellData.barFrac
        ((x - d.min) / (if d.max = d.min then 1 else d.max - d.min))) := by
    unfold ExampleTableModel.data
    rw [h1, h2]
    simp only [h3, h4, h5, h6, if_true, sub_eq_zero]
  have hden : (if d.max = d.min then (1 : ℚ) else d.max - d.min) ≠ 0 := by
    by_cases h : d.max = d.min
    · simp [h]
    · simp only [h, if_false]
      exact sub_ne_zero_of_ne h
  refine ⟨hdata, hden, ?_, ?_⟩
  · intro heq hx
    rw [hdata, heq, hx]
    norm_num
  · intro hmin hmax hx
    rw [hdata, hmin, hmax, hx]
    norm_num

/-- C5 witness: the theorem evaluated on a min 0 / max 10 column at value
5/2 (fraction 1/4), on a constant column (fraction 0), and on a value
above the maximum (fraction 3, above 1, hence unclamped). -/
theorem c5_witness :
    barModelA.data 0 0 Role.bar = some (CellData.barFrac (1 / 4)) ∧
    barModelB.data 0 0 Role.bar = some (CellData.barFrac 0) ∧
    barModelC.data 0 0 Role.bar = some (CellData.barFrac 3) ∧
    (1 : ℚ) < 3 := by
  have hA := c5_bar_fraction barModelA 0 0 0 ⟨"a", VarKind.continuous⟩
    [some (5 / 2)] (5 / 2) ⟨0, 10⟩ rfl rfl rfl rfl (by decide) rfl
  have hB := c5_bar_fraction barModelB 0 0 0 ⟨"a", VarKind.continuous⟩
    [some 2] 2 ⟨2, 2⟩ rfl rfl rfl rfl (by decide) rfl
  have hC := c5_bar_fraction barModelC 0 0 0 ⟨"a", VarKind.continuous⟩
    [some 30] 30 ⟨0, 10⟩ rfl rfl rfl rfl (by decide) rfl
  refine ⟨hA.2.2.2 rfl rfl rfl, hB.2.2.1 rfl rfl, ?_, by norm_num⟩
  have h := hC.1
  norm_num at h
  exact h

/-- C10: a cell query with an unrecognized role answers from the overlay
store keyed by the raw view row (so a stored overlay value survives a
sort unchanged at the same view position, and the answer depends only on
the overlay store), whereas a recognized-role query first resolves the
view row through the sort permutation. -/
theorem c10_overlay_raw_view_row (m : ExampleTableModel)
    (row col key v scol : Nat) (dir : Bool) (drow : Nat) (attr : Variable)
    (ex : List Value) (val : Value)
    (h1 : m.sorted_map.get? row = some drow)
    (h2 : m.all_attrs.get? col = some attr)
    (h3 : m.examples.get? drow = some ex)
    (h4 : ex.get? col = some val) :
    m.data row col (Role.other key) =
      (alookup (row, col, key) m.otherData).map CellData.overlay ∧
    (m.setData row col key v).data row col (Role.other key) =
      some (CellData.overlay v) ∧
    ((m.setData row col key v).sort scol dir).data row col (Role.other key) =
      some (CellData.overlay v) ∧
    (∀ m' : ExampleTableModel, m'.otherData = m.otherData →
      m'.data row col (Role.other key) = m.data row col (Role.other key)) ∧
    m.data row col Role.display = some (CellData.text (showValue val)) := by
  refine ⟨rfl, ?_, ?_, ?_, ?_⟩
  · unfold ExampleTableModel.data ExampleTableModel.setData
    simp [alookup_insertKey_self]
  · unfold ExampleTableModel.data ExampleTableModel.sort ExampleTableModel.setData
    simp [alookup_insertKey_self]
  · intro m' hm'
    unfold ExampleTableModel.data
    rw [hm']
  · unfold ExampleTableModel.data
    rw [h1, h2]
    simp only [h3, h4]

/-- C10 witness: store an overlay value at view cell (0, 0), sort the
column descending, and observe both the surviving overlay answer and the
permuted display answer. -/
theorem c10_witness :
    ((demoTab.model.setData 0 0 7 42).sort 0 false).data 0 0 (Role.other 7) =
      some (CellData.overlay 42) ∧
    demoTab.model.data 0 0 Role.display =
      some (CellData.text (showValue (some 1))) := by
  have h := c10_overlay_raw_view_row demoTab.model 0 0 7 42 0 false 0
    ⟨"a", VarKind.continuous⟩ [some 1] (some 1) rfl rfl rfl rfl
  exact ⟨h.2.2.1, h.2.2.2.2⟩

theorem selectNonzero_indicator_aux {α : Type} (P : Nat → Prop)
    [DecidablePred P] :
    ∀ (ex : List α) (n : Nat),
      selectNonzero ex
          ((List.range' n ex.length).map (fun i => if P i then 1 else 0)) =
        ((List.enumFrom n ex).filter (fun p => decide (P p.1))).map Prod.snd := by
  intro ex
  induction ex with
  | nil => intro n; rfl
  | cons a tl ih =>
    intro n
    rw [show (a :: tl).length = tl.length + 1 from rfl, List.range'_succ]
    by_cases h : P n
    · simp [selectNonzero, List.enumFrom, h, ← ih (n + 1), selectNonzero]
    · simp [selectNonzero, List.enumFrom, h, ← ih (n + 1), selectNonzero]

theorem selectEq0_indicator_aux {α : Type} (P : Nat → Prop) [DecidablePred P] :
    ∀ (ex : List α) (n : Nat),
      selectEq ex ((List.range' n ex.length).map (fun i => if P i then 1 else 0))
          0 =
        ((List.enumFrom n ex).filter (fun p => !decide (P p.1))).map Prod.snd := by
  intro ex
  induction ex with
  | nil => intro n; rfl
  | cons a tl ih =>
    intro n
    rw [show (a :: tl).length = tl.length + 1 from rfl, List.range'_succ]
    by_cases h : P n
    · simp [selectEq, List.enumFrom, h, ← ih (n + 1), selectEq]
    · simp [selectEq, List.enumFrom, h, ← ih (n + 1), selectEq]

theorem selectNonzero_indicator {α : Type} (P : Nat → Prop) [DecidablePred P]
    (ex : List α) :
    selectNonzero ex
        ((List.range ex.length).map (fun i => if P i then 1 else 0)) =
      (ex.enum.filter (fun p => decide (P p.1))).map Prod.snd := by
  rw [List.range_eq_range']
  exact selectNonzero_indicator_aux P ex 0

theorem selectEq0_indicator {α : Type} (P : Nat → Prop) [DecidablePred P]
    (ex : List α) :
    selectEq ex ((List.range ex.length).map (fun i => if P i then 1 else 0)) 0 =
      (ex.enum.filter (fun p => !decide (P p.1))).map Prod.snd := by
  rw [List.range_eq_range']
  exact selectEq0_indicator_aux P ex 0

/-- C1: commit clears the pending-change flag in every case; with no
active tab (or no bound model) it sends `None` on both channels; with an
active tab it emits on "Selected Data" exactly the sub-dataset of the
rows in the current selection (`None` when that is empty) and on "Other
Data" exactly the complementary sub-dataset (`None` when that is empty),
the two sub-datasets' sizes summing to the dataset size and together
being a permutation of the dataset, so every row lands in exactly one of
the two outputs. -/
theorem c1_commit_partition (s : OWState) :
    (s.commit).selectionChangedFlag = false ∧
    (s.currentTab = none →
      (s.commit).selectedOut = some none ∧ (s.commit).otherOut = some none) ∧
    (∀ t : TabState, s.currentTab = some t →
      (s.commit).selectedOut =
        some (if (selectedSubset t).isEmpty then none
          else some (selectedSubset t)) ∧
      (s.commit).otherOut =
        some (if (otherSubset t).isEmpty then none else some (otherSubset t)) ∧
      (selectedSubset t).length + (otherSubset t).length =
        t.model.examples.length ∧
      List.Perm (selectedSubset t ++ otherSubset t) t.model.examples) := by
  have hperm : ∀ t : TabState,
      List.Perm (selectedSubset t ++ otherSubset t) t.model.examples := by
    intro t
    have h := List.filter_append_perm
      (fun p : Nat × List Value => decide (p.1 ∈ getCurrentSelection t))
      t.model.examples.enum
    have h2 := h.map Prod.snd
    rw [List.map_append, List.enum_map_snd] at h2
    unfold selectedSubset otherSubset
    exact h2
  refine ⟨?_, ?_, ?_⟩
  · unfold OWState.commit
    cases h : s.currentTab <;> simp [h]
  · intro h
    unfold OWState.commit
    simp [h]
  · intro t h
    have hsel : selectNonzero t.model.examples
        ((List.range t.model.examples.length).map
          (fun i => if i ∈ getCurrentSelection t then 1 else 0)) =
        selectedSubset t :=
      selectNonzero_indicator (fun i => i ∈ getCurrentSelection t)
        t.model.examples
    have hoth : selectEq t.model.examples
        ((List.range t.model.examples.length).map
          (fun i => if i ∈ getCurrentSelection t then 1 else 0)) 0 =
        otherSubset t :=
      selectEq0_indicator (fun i => i ∈ getCurrentSelection t)
        t.model.examples
    have hlen : (selectedSubset t).length + (otherSubset t).length =
        t.model.examples.length := by
      have := (hperm t).length_eq
      rw [List.length_append] at this
      exact this
    refine ⟨?_, ?_, hlen, hperm t⟩
    · unfold OWState.commit
      simp only [h, hsel]
      cases hc : selectedSubset t <;> simp [hc]
    · unfold OWState.commit
      simp only [h, hoth]
      cases hc : otherSubset t <;> simp [hc]

/-- C1 witness: commit on the three-row demo tab with underlying rows
0 and 2 selected emits those two rows and the complementary single row. -/
theorem c1_witness :
    (demoState.commit).selectedOut = some (some [[some 1], [some 3]]) ∧
    (demoState.commit).otherOut = some (some [[some 2]]) ∧
    (demoState.commit).selectionChangedFlag = false := by
  have h := c1_commit_partition demoState
  have h2 := h.2.2 demoTab rfl
  refine ⟨?_, ?_, h.1⟩
  · rw [h2.1]
    decide
  · rw [h2.2.1]
    decide

/-- C8: with auto-commit off, a selection change leaves both output
channels untouched, sets the pending-change flag, and re-evaluates the
send-button enabled state from the selection; with auto-commit on, a
selection change immediately performs the commit (after the same button
re-evaluation), with no separate invocation. -/
theorem c8_autocommit_gating (s : OWState) :
    (s.autoCommit = false →
      (s.updateSelection).selectedOut = s.selectedOut ∧
      (s.updateSelection).otherOut = s.otherOut ∧
      (s.updateSelection).selectionChangedFlag = true ∧
      (s.updateSelection).sendEnabled = currentSelectionNonempty s) ∧
    (s.autoCommit = true →
      s.updateSelection =
        OWState.commit
          { s with sendEnabled := currentSelectionNonempty s && !s.autoCommit }) := by
  constructor
  · intro h
    unfold OWState.updateSelection OWState.commitIf
    simp [h]
  · intro h
    unfold OWState.updateSelection OWState.commitIf
    simp [h]

/-- C8 witness: the gating theorem evaluated on the demo state with
auto-commit off (outputs untouched, flag pending) and on the same state
with auto-commit on (outputs produced immediately). -/
theorem c8_witness :
    (demoState.updateSelection).selectedOut = none ∧
    (demoState.updateSelection).otherOut = none ∧
    (demoState.updateSelection).selectionChangedFlag = true ∧
    (demoStateAuto.updateSelection).selectedOut =
      some (some [[some 1], [some 3]]) := by
  have hoff := (c8_autocommit_gating demoState).1 rfl
  have hon := (c8_autocommit_gating demoStateAuto).2 rfl
  refine ⟨hoff.1, hoff.2.1, hoff.2.2.1, ?_⟩
  rw [hon]
  decide

theorem getD_eq_get {α : Type} (l : List α) (d : α) {i : Nat}
    (h : i < l.length) :
    l.getD i d = l.get ⟨i, h⟩ := by
  rw [List.getD_eq_getElem?_getD, List.getElem?_eq_getElem h,
    List.get_eq_getElem]
  rfl

theorem sortedValues_length (cells : List Value) (dir : Bool) :
    (sortedValues cells dir).length = cells.length := by
  simp [sortedValues, sortPairs, List.length_insertionSort]

theorem sortedMapFor_length (cells : List Value) (dir : Bool) :
    (sortedMapFor cells dir).length = cells.length := by
  simp [sortedMapFor, sortedValues_length]

theorem sortedValues_mem (cells : List Value) (dir : Bool) :
    ∀ pr ∈ sortedValues cells dir, cells[pr.2]? = some pr.1 := by
  intro pr hpr
  rw [sortedValues, List.mem_insertionSort, sortPairs, List.mem_map] at hpr
  obtain ⟨x, hx, hfx⟩ := hpr
  have hget := List.mem_enum_iff_getElem?.mp hx
  rw [← hfx]
  exact hget

theorem cell_of_mem_sortedValues (cells : List Value) (dir : Bool)
    {pr : Value × Nat} (h : pr ∈ sortedValues cells dir) :
    cells.getD pr.2 none = pr.1 := by
  rw [List.getD_eq_getElem?_getD, sortedValues_mem cells dir pr h]
  rfl

theorem cell_at_sorted (cells : List Value) (dir : Bool) (p : Nat)
    (hp : p < (sortedValues cells dir).length) :
    cells.getD ((sortedMapFor cells dir).getD p 0) none =
      ((sortedValues cells dir).get ⟨p, hp⟩).1 := by
  have hp2 : p < ((sortedValues cells dir).map (fun v => v.2)).length := by
    simpa using hp
  have h1 : (sortedMapFor cells dir).getD p 0 =
      ((sortedValues cells dir).get ⟨p, hp⟩).2 := by
    rw [sortedMapFor, getD_eq_get _ _ hp2]
    simp [List.get_eq_getElem, List.getElem_map]
  rw [h1]
  exact cell_of_mem_sortedValues cells dir (List.get_mem _ p hp)

theorem pair_get_sublist {α : Type} :
    ∀ (l : List α) (i j : Nat) (hij : i < j) (hj : j < l.length),
      [l.get ⟨i, lt_trans hij hj⟩, l.get ⟨j, hj⟩].Sublist l := by
  intro l
  induction l with
  | nil =>
    intro i j hij hj
    simp at hj
  | cons a tl ih =>
    intro i j hij hj
    cases i with
    | zero =>
      cases j with
      | zero => omega
      | succ j' =>
        have hj' : j' < tl.length := by simpa using hj
        show ([a, tl.get ⟨j', hj'⟩]).Sublist (a :: tl)
        exact List.Sublist.cons₂ a
          (List.singleton_sublist.mpr (List.get_mem tl j' hj'))
    | succ i' =>
      cases j with
      | zero => omega
      | succ j' =>
        have hij' : i' < j' := by omega
        have hj' : j' < tl.length := by simpa using hj
        show ([tl.get ⟨i', lt_trans hij' hj'⟩, tl.get ⟨j', hj'⟩]).Sublist (a :: tl)
        exact List.Sublist.cons a (ih i' j' hij' hj')

/-- C3 (amended): every column sort keys each row by its cell value with
missing values replaced by the `sys.maxint` sentinel before the
directional comparison; the resulting row order is a permutation of the
dataset rows with keys monotone in the chosen direction; missing-valued
rows sort after all present-valued rows when ascending (clustered at the
end, equal-key rows — the missing rows included — keeping their original
relative order), but cluster at the beginning, not the end, when
descending, because the maximal sentinel is assigned before the reversed
comparison is applied. -/
theorem c3_sort_sentinel_policy (m : ExampleTableModel) (col : Nat)
    (hv : ∀ v ∈ columnCells m col, v ≠ none → sortKey v < sysMaxint) :
    ((m.sort col true).sorted_map).Perm (List.range m.examples.length) ∧
    ((m.sort col false).sorted_map).Perm (List.range m.examples.length) ∧
    List.Pairwise
      (fun a b : Nat => sortKey ((columnCells m col).getD a none) ≤
        sortKey ((columnCells m col).getD b none))
      (m.sort col true).sorted_map ∧
    List.Pairwise
      (fun a b : Nat => sortKey ((columnCells m col).getD b none) ≤
        sortKey ((columnCells m col).getD a none))
      (m.sort col false).sorted_map ∧
    (∀ p q : Nat, p < q → q < (m.sort col true).sorted_map.length →
      (columnCells m col).getD ((m.sort col true).sorted_map.getD p 0) none =
        none →
      (columnCells m col).getD ((m.sort col true).sorted_map.getD q 0) none =
        none) ∧
    (∀ i j : Nat, i < j → j < (columnCells m col).length →
      sortKey ((columnCells m col).getD i none) =
        sortKey ((columnCells m col).getD j none) →
      [i, j].Sublist (m.sort col true).sorted_map) ∧
    (∀ p q : Nat, p < q → q < (m.sort col false).sorted_map.length →
      (columnCells m col).getD ((m.sort col false).sorted_map.getD q 0) none =
        none →
      (columnCells m col).getD ((m.sort col false).sorted_map.getD p 0) none =
        none) := by
  have hsm : ∀ b : Bool,
      (m.sort col b).sorted_map = sortedMapFor (columnCells m col) b :=
    fun b => rfl
  have hlen : (columnCells m col).length = m.examples.length := by
    simp [columnCells]
  have hpairs : ∀ b : Bool,
      List.Pairwise (sortRel b) (sortedValues (columnCells m col) b) :=
    fun b => List.sorted_insertionSort (sortRel b) (sortPairs (columnCells m col))
  have hperm : ∀ b : Bool,
      (sortedMapFor (columnCells m col) b).Perm
        (List.range m.examples.length) := by
    intro b
    have h1 : (sortedValues (columnCells m col) b).Perm
        (sortPairs (columnCells m col)) := List.perm_insertionSort _ _
    have h2 := h1.map (fun v : Value × Nat => v.2)
    have h3 : (sortPairs (columnCells m col)).map (fun v : Value × Nat => v.2) =
        List.range (columnCells m col).length := by
      rw [sortPairs, List.map_map]
      have hcomp : ((fun v : Value × Nat => v.2) ∘
          (fun p : Nat × Value => (p.2, p.1))) = (fun p : Nat × Value => p.1) :=
        rfl
      rw [hcomp]
      simp [List.enum_map_fst]
    rw [h3, hlen] at h2
    exact h2
  have hmissAfter : ∀ b : Bool, ∀ p q : Nat, p < q →
      q < (sortedMapFor (columnCells m col) b).length →
      (∀ hp : p < (sortedValues (columnCells m col) b).length,
       ∀ hq : q < (sortedValues (columnCells m col) b).length,
        sortRel b ((sortedValues (columnCells m col) b).get ⟨p, hp⟩)
          ((sortedValues (columnCells m col) b).get ⟨q, hq⟩)) := by
    intro b p q hpq hq hp' hq'
    have hpw := hpairs b
    rw [List.pairwise_iff_getElem] at hpw
    have := hpw p q (by simpa [List.get_eq_getElem] using hp')
      (by simpa [List.get_eq_getElem] using hq') hpq
    simpa [List.get_eq_getElem] using this
  have hcellmem : ∀ b : Bool, ∀ q : Nat,
      ∀ hq : q < (sortedValues (columnCells m col) b).length,
      ((sortedValues (columnCells m col) b).get ⟨q, hq⟩).1 ∈
        columnCells m col := by
    intro b q hq
    exact List.getElem?_mem
      (sortedValues_mem (columnCells m col) b _ (List.get_mem _ q hq))
  refine ⟨(hsm true) ▸ hperm true, (hsm false) ▸ hperm false, ?_, ?_, ?_, ?_, ?_⟩
  · rw [hsm true, sortedMapFor, List.pairwise_map]
    refine List.Pairwise.imp_of_mem ?_ (hpairs true)
    intro a b ha hb hr
    rw [cell_of_mem_sortedValues _ _ ha, cell_of_mem_sortedValues _ _ hb]
    exact hr
  · rw [hsm false, sortedMapFor, List.pairwise_map]
    refine List.Pairwise.imp_of_mem ?_ (hpairs false)
    intro a b ha hb hr
    rw [cell_of_mem_sortedValues _ _ ha, cell_of_mem_sortedValues _ _ hb]
    exact hr
  · intro p q hpq hq hmiss
    rw [hsm true] at hq hmiss ⊢
    have hq' : q < (sortedValues (columnCells m col) true).length := by
      rw [sortedValues_length]
      rw [sortedMapFor_length] at hq
      exact hq
    have hp' : p < (sortedValues (columnCells m col) true).length :=
      lt_trans hpq hq'
    rw [cell_at_sorted _ _ p hp'] at hmiss
    rw [cell_at_sorted _ _ q hq']
    by_contra hcon
    obtain ⟨x, hx⟩ := Option.ne_none_iff_exists'.mp hcon
    have hmem := hcellmem true q hq'
    have hlt := hv _ hmem (by rw [hx]; simp)
    have hrel := hmissAfter true p q hpq hq hp' hq'
    have hkeyp : sortKey ((sortedValues (columnCells m col) true).get
        ⟨p, hp'⟩).1 = sysMaxint := by
      rw [hmiss]; rfl
    have : sysMaxint ≤ sortKey ((sortedValues (columnCells m col) true).get
        ⟨q, hq'⟩).1 := by
      rw [← hkeyp]
      exact hrel
    linarith
  · intro i j hij hj hkey
    have hi : i < (columnCells m col).length := lt_trans hij hj
    have hej : j < (columnCells m col).enum.length := by simpa using hj
    have hsub1 := pair_get_sublist (columnCells m col).enum i j hij hej
    have hgeti : (columnCells m col).enum.get ⟨i, lt_trans hij hej⟩ =
        (i, (columnCells m col).get ⟨i, hi⟩) := by
      rw [List.get_eq_getElem, List.getElem_enum, List.get_eq_getElem]
    have hgetj : (columnCells m col).enum.get ⟨j, hej⟩ =
        (j, (columnCells m col).get ⟨j, hj⟩) := by
      rw [List.get_eq_getElem, List.getElem_enum, List.get_eq_getElem]
    rw [hgeti, hgetj] at hsub1
    have hsub2 := hsub1.map (fun p : Nat × Value => (p.2, p.1))
    have hsub2' : [((columnCells m col).get ⟨i, hi⟩, i),
        ((columnCells m col).get ⟨j, hj⟩, j)].Sublist
          (sortPairs (columnCells m col)) := by
      simpa [sortPairs] using hsub2
    have hrel : sortRel true ((columnCells m col).get ⟨i, hi⟩, i)
        ((columnCells m col).get ⟨j, hj⟩, j) := by
      show sortKey ((columnCells m col).get ⟨i, hi⟩) ≤
        sortKey ((columnCells m col).get ⟨j, hj⟩)
      rw [← getD_eq_get (columnCells m col) none hi,
        ← getD_eq_get (columnCells m col) none hj, hkey]
    have hsub3 := List.pair_sublist_insertionSort hrel hsub2'
    have hsub4 := hsub3.map (fun v : Value × Nat => v.2)
    rw [hsm true]
    simpa [sortedMapFor, sortedValues] using hsub4
  · intro p q hpq hq hmiss
    rw [hsm false] at hq hmiss ⊢
    have hq' : q < (sortedValues (columnCells m col) false).length := by
      rw [sortedValues_length]
      rw [sortedMapFor_length] at hq
      exact hq
    have hp' : p < (sortedValues (columnCells m col) false).length :=
      lt_trans hpq hq'
    rw [cell_at_sorted _ _ q hq'] at hmiss
    rw [cell_at_sorted _ _ p hp']
    by_contra hcon
    obtain ⟨x, hx⟩ := Option.ne_none_iff_exists'.mp hcon
    have hmem := hcellmem false p hp'
    have hlt := hv _ hmem (by rw [hx]; simp)
    have hrel := hmissAfter false p q hpq hq hp' hq'
    have hkeyq : sortKey ((sortedValues (columnCells m col) false).get
        ⟨q, hq'⟩).1 = sysMaxint := by
      rw [hmiss]; rfl
    have : sysMaxint ≤ sortKey ((sortedValues (columnCells m col) false).get
        ⟨p, hp'⟩).1 := by
      rw [← hkeyq]
      exact hrel
    linarith

/-- C3 counterexample: sorting the column `[3, missing, 1, missing, 2]`
descending places the two missing rows (dataset rows 1 and 3) at the
beginning, before all present-valued rows, so missing-valued rows do not
sort after all present-valued rows regardless of direction. -/
theorem c3_counterexample :
    (c3model.sort 0 false).sorted_map = [1, 3, 0, 4, 2] ∧
    c3cells.getD 1 none = none ∧
    c3cells.getD 0 none ≠ none ∧
    ¬ missingAfterPresent c3cells (c3model.sort 0 false).sorted_map := by
  decide

/-- C3 witness: the amended theorem evaluated on the
`[3, missing, 1, missing, 2]` column: the ascending order is a
permutation of the five rows and keeps the two equal-key missing rows
(rows 1 and 3) in their original relative order. -/
theorem c3_witness :
    [1, 3].Sublist (c3model.sort 0 true).sorted_map ∧
    ((c3model.sort 0 true).sorted_map).Perm (List.range 5) := by
  have h := c3_sort_sentinel_policy c3model 0 (by decide)
  exact ⟨h.2.2.2.2.2.1 1 3 (by decide) (by decide) (by decide), h.1⟩

theorem needsQuote_eq_false {delim : Char} (hd : delim = ',' ∨ delim = '\t')
    (cs : List Char) (h : ∀ c ∈ cs, isPlainChar c = true) :
    needsQuote delim cs = false := by
  rw [needsQuote, List.any_eq_false]
  intro c hc
  have hp := h c hc
  rw [isPlainChar, decide_eq_true_iff] at hp
  simp only [decide_eq_true_iff, not_or]
  refine ⟨?_, hp.2.2.1, hp.2.2.2.1, hp.2.2.2.2⟩
  rcases hd with h2 | h2 <;> subst h2
  · exact hp.1
  · exact hp.2.1

theorem quoteField_plain {delim : Char} (hd : delim = ',' ∨ delim = '\t')
    (cs : List Char) (h : ∀ c ∈ cs, isPlainChar c = true) :
    quoteField delim cs = cs := by
  rw [quoteField, needsQuote_eq_false hd cs h]
  simp

theorem writeRow_plain {delim : Char} (hd : delim = ',' ∨ delim = '\t')
    (cells : List (List Char))
    (h : ∀ cs ∈ cells, ∀ c ∈ cs, isPlainChar c = true) :
    writeRow delim cells = joinSep delim cells ++ ['\r', '\n'] := by
  rw [writeRow]
  have hmap : cells.map (quoteField delim) = cells := by
    have h1 : ∀ cs ∈ cells, quoteField delim cs = id cs := fun cs hcs =>
      quoteField_plain hd cs (h cs hcs)
    rw [List.map_congr_left h1, List.map_id]
  rw [hmap]

theorem mem_joinSep {d : Char} {cells : List (List Char)} {c : Char}
    (hc : c ∈ joinSep d cells) : c = d ∨ ∃ cs ∈ cells, c ∈ cs := by
  induction cells with
  | nil => simp [joinSep] at hc
  | cons cs rest ih =>
    cases rest with
    | nil =>
      simp only [joinSep] at hc
      right
      exact ⟨cs, by simp, hc⟩
    | cons cs2 rest2 =>
      simp only [joinSep] at hc
      rcases List.mem_append.mp hc with h | h
      · right
        exact ⟨cs, by simp, h⟩
      · rcases List.mem_cons.mp h with h | h
        · left
          exact h
        · rcases ih h with h | ⟨cs3, hcs3, hc3⟩
          · left
            exact h
          · right
            exact ⟨cs3, by simp [hcs3], hc3⟩

theorem splitCRLFGo_fuel :
    ∀ (n : Nat) (cs : List Char), cs.length ≤ n → ∀ f1 f2 : Nat,
      cs.length ≤ f1 → cs.length ≤ f2 →
      splitCRLFGo f1 cs = splitCRLFGo f2 cs := by
  intro n
  induction n with
  | zero =>
    intro cs hcs f1 f2 h1 h2
    have : cs = [] := List.length_eq_zero.mp (Nat.le_zero.mp hcs)
    subst this
    cases f1 <;> cases f2 <;> rfl
  | succ n ih =>
    intro cs hcs f1 f2 h1 h2
    cases cs with
    | nil => cases f1 <;> cases f2 <;> rfl
    | cons c rest =>
      simp only [List.length_cons] at hcs h1 h2
      cases f1 with
      | zero => omega
      | succ f1 =>
        cases f2 with
        | zero => omega
        | succ f2 =>
          simp only [splitCRLFGo]
          have hrest : rest.length ≤ n := by omega
          by_cases hcond : c = '\r' ∧ rest.head? = some '\n'
          · rw [if_pos hcond, if_pos hcond]
            have htail : rest.tail.length ≤ n := by
              rw [List.length_tail]; omega
            rw [ih rest.tail htail f1 f2 (by rw [List.length_tail]; omega)
              (by rw [List.length_tail]; omega)]
          · rw [if_neg hcond, if_neg hcond,
              ih rest hrest f1 f2 (by omega) (by omega)]

theorem splitCRLFGo_append :
    ∀ (l rest : List Char) (fuel : Nat),
      (l ++ '\r' :: '\n' :: rest).length ≤ fuel →
      (∀ c ∈ l, c ≠ '\r') →
      splitCRLFGo fuel (l ++ '\r' :: '\n' :: rest) =
        l :: splitCRLFGo rest.length rest := by
  intro l
  induction l with
  | nil =>
    intro rest fuel hfuel h
    simp only [List.nil_append, List.length_cons] at hfuel ⊢
    cases fuel with
    | zero => omega
    | succ fuel =>
      simp only [splitCRLFGo, List.head?_cons, List.tail_cons, and_self,
        if_true]
      rw [splitCRLFGo_fuel fuel rest (by omega) fuel rest.length (by omega)
        (le_refl _)]
  | cons c t ih =>
    intro rest fuel hfuel h
    have hc : c ≠ '\r' := h c (by simp)
    have ht : ∀ x ∈ t, x ≠ '\r' := fun x hx => h x (by simp [hx])
    simp only [List.cons_append, List.length_cons] at hfuel ⊢
    cases fuel with
    | zero =>
      simp only [List.length_append, List.length_cons] at hfuel
      omega
    | succ fuel =>
      simp only [splitCRLFGo]
      rw [if_neg (fun hcon => hc hcon.1)]
      have hfuel2 : (t ++ '\r' :: '\n' :: rest).length ≤ fuel := by
        simp only [List.length_append, List.length_cons] at hfuel ⊢
        omega
      rw [ih rest fuel hfuel2 ht]

theorem splitCRLF_append (l : List Char) (h : ∀ c ∈ l, c ≠ '\r')
    (rest : List Char) :
    splitCRLF (l ++ '\r' :: '\n' :: rest) = l :: splitCRLF rest := by
  rw [splitCRLF, splitCRLF]
  exact splitCRLFGo_append l rest _ (le_refl _) h

theorem splitCRLF_writerBytes {delim : Char} (hd : delim = ',' ∨ delim = '\t')
    (lines : List (List (List Char)))
    (h : ∀ line ∈ lines, ∀ cs ∈ line, ∀ c ∈ cs, isPlainChar c = true) :
    splitCRLF (writerBytes delim lines) =
      lines.map (joinSep delim) ++ [[]] := by
  induction lines with
  | nil => rfl
  | cons line rest ih =>
    have hline : ∀ cs ∈ line, ∀ c ∈ cs, isPlainChar c = true :=
      h line (by simp)
    have hrow : writeRow delim line = joinSep delim line ++ ['\r', '\n'] :=
      writeRow_plain hd line hline
    have hnoCR : ∀ c ∈ joinSep delim line, c ≠ '\r' := by
      intro c hc
      rcases mem_joinSep hc with h1 | ⟨cs, hcs, hc2⟩
      · subst h1
        rcases hd with h2 | h2 <;> subst h2 <;> decide
      · have hp := hline cs hcs c hc2
        rw [isPlainChar, decide_eq_true_iff] at hp
        exact hp.2.2.2.1
    have hbytes : writerBytes delim (line :: rest) =
        joinSep delim line ++ '\r' :: '\n' :: writerBytes delim rest := by
      rw [writerBytes, List.map_cons, List.flatten_cons, hrow,
        List.append_assoc]
      rfl
    rw [hbytes, splitCRLF_append _ hnoCR,
      ih (fun ln hl => h ln (by simp [hl]))]
    rfl

/-- C7: the plain-text clipboard representation is byte-identical to the
tab-separated one, and, for cell texts free of delimiter, quote and
line-break characters, the comma-separated and tab-separated byte strings
split on the row terminator into the same number of lines, line i being
the very same cell texts of selected row i joined by the respective
delimiter — equal cell values in equal order, differing only in the
delimiter; all three representations are published together. -/
theorem c7_clipboard_triple (m : ExampleTableModel) (rows : List Nat)
    (_hne : rows ≠ [])
    (hplain : ∀ line ∈ selectionLines m rows, ∀ cs ∈ line, ∀ c ∈ cs,
      isPlainChar c = true) :
    (copy_selection_to_clipboard m rows).plain =
      (copy_selection_to_clipboard m rows).tsv ∧
    splitCRLF (copy_selection_to_clipboard m rows).csv =
      (selectionLines m rows).map (joinSep ',') ++ [[]] ∧
    splitCRLF (copy_selection_to_clipboard m rows).tsv =
      (selectionLines m rows).map (joinSep '\t') ++ [[]] ∧
    (splitCRLF (copy_selection_to_clipboard m rows).csv).length =
      (splitCRLF (copy_selection_to_clipboard m rows).tsv).length ∧
    (splitCRLF (copy_selection_to_clipboard m rows).csv).length =
      rows.length + 1 := by
  have hcsv := splitCRLF_writerBytes (Or.inl rfl) (selectionLines m rows) hplain
  have htsv := splitCRLF_writerBytes (Or.inr rfl) (selectionLines m rows) hplain
  have h1 : splitCRLF (copy_selection_to_clipboard m rows).csv =
      (selectionLines m rows).map (joinSep ',') ++ [[]] := hcsv
  have h2 : splitCRLF (copy_selection_to_clipboard m rows).tsv =
      (selectionLines m rows).map (joinSep '\t') ++ [[]] := htsv
  refine ⟨rfl, h1, h2, ?_, ?_⟩
  · rw [h1, h2]
    simp
  · rw [h1]
    simp [selectionLines]

/-- C7 witness: the theorem evaluated on a two-row selection whose cells
render as `"?"`: the plain text equals the tab-separated text and the
comma-separated bytes split into the two cell lines plus the trailing
empty segment. -/
theorem c7_witness :
    (copy_selection_to_clipboard copyModel [0, 1]).plain =
      (copy_selection_to_clipboard copyModel [0, 1]).tsv ∧
    splitCRLF (copy_selection_to_clipboard copyModel [0, 1]).csv =
      [['?'], ['?'], []] := by
  have h := c7_clipboard_triple copyModel [0, 1] (by decide) (by decide)
  refine ⟨h.1, ?_⟩
  rw [h.2.1]
  decide

theorem removeConn_spec (s : WidgetState) (hInv : WidgetInv s) (id v : Nat)
    (hv : alookup id s.id2table = some v) :
    ∃ s2 : WidgetState, s.removeConn id = some s2 ∧ WidgetInv s2 ∧
      alookup id s2.data = none ∧
      alookup id s2.showMetas = none ∧
      alookup id s2.id2table = none ∧
      alookup v s2.table2id = none ∧
      v ∉ s2.tabs ∧
      s2.tabs = s.tabs.erase v := by
  obtain ⟨h1, h2, h3, h4, h5, h6, h7, h8⟩ := hInv
  refine ⟨{ s with
      data := eraseKey id s.data
      showMetas := eraseKey id s.showMetas
      tabs := s.tabs.erase v
      id2table := eraseKey id s.id2table
      table2id := eraseKey v s.table2id }, ?_, ?_,
    alookup_eraseKey_self id s.data,
    alookup_eraseKey_self id s.showMetas,
    alookup_eraseKey_self id s.id2table,
    alookup_eraseKey_self v s.table2id,
    fun hmem => ((h7.mem_erase_iff.mp hmem).1 rfl : False), rfl⟩
  · unfold WidgetState.removeConn
    rw [hv]
  refine ⟨?_, ?_, ?_, ?_, ?_, ?_, ?_, ?_⟩
  · intro k
    by_cases hk : k = id
    · subst hk
      simp [alookup_eraseKey_self]
    · rw [alookup_eraseKey_ne hk, alookup_eraseKey_ne hk]
      exact h1 k
  · intro k
    by_cases hk : k = id
    · subst hk
      simp [alookup_eraseKey_self]
    · rw [alookup_eraseKey_ne hk, alookup_eraseKey_ne hk]
      exact h2 k
  · intro k w hw
    by_cases hk : k = id
    · subst hk
      rw [alookup_eraseKey_self] at hw
      exact absurd hw (by simp)
    · rw [alookup_eraseKey_ne hk] at hw
      have hw2 := h3 k w hw
      have hwv : w ≠ v := by
        intro heq
        have hidv := h3 id v hv
        have hw3 := hw2
        rw [heq, hidv] at hw3
        exact hk (Option.some_injective _ hw3).symm
      rw [alookup_eraseKey_ne hwv]
      exact hw2
  · intro w k hw
    have hwv : w ≠ v := by
      intro heq
      have hw3 := hw
      rw [heq, alookup_eraseKey_self] at hw3
      exact absurd hw3 (by simp)
    rw [alookup_eraseKey_ne hwv] at hw
    have hk2 := h4 w k hw
    have hkid : k ≠ id := by
      intro heq
      have hk3 := hk2
      rw [heq, hv] at hk3
      exact hwv (Option.some_injective _ hk3).symm
    rw [alookup_eraseKey_ne hkid]
    exact hk2
  · intro k w hw
    by_cases hk : k = id
    · subst hk
      rw [alookup_eraseKey_self] at hw
      exact absurd hw (by simp)
    · rw [alookup_eraseKey_ne hk] at hw
      exact h5 k w hw
  · intro x hx
    exact h6 x (List.mem_of_mem_erase hx)
  · exact h7.erase v
  · intro k w hw
    by_cases hk : k = id
    · subst hk
      rw [alookup_eraseKey_self] at hw
      exact absurd hw (by simp)
    · rw [alookup_eraseKey_ne hk] at hw
      have hmem := h8 k w hw
      have hwv : w ≠ v := by
        intro heq
        have hw2 := h3 k w hw
        have hidv := h3 id v hv
        rw [heq, hidv] at hw2
        exact hk (Option.some_injective _ hw2).symm
      exact (List.mem_erase_of_ne hwv).mpr hmem

theorem insertConn_spec (s1 : WidgetState) (hInv : WidgetInv s1) (cid : Nat)
    (t : Dataset) (habs : alookup cid s1.data = none) :
    WidgetInv { s1 with
      data := insertKey cid t s1.data
      showMetas := insertKey cid ⟨true, []⟩ s1.showMetas
      id2table := insertKey cid s1.nextView s1.id2table
      table2id := insertKey s1.nextView cid s1.table2id
      tabs := s1.tabs ++ [s1.nextView]
      nextView := s1.nextView + 1 } := by
  obtain ⟨h1, h2, h3, h4, h5, h6, h7, h8⟩ := hInv
  have habs2 : alookup cid s1.id2table = none := by
    have hiff := h2 cid
    rw [habs] at hiff
    simp only [Option.isSome_none, Bool.false_eq_true, false_iff] at hiff
    cases hcase : alookup cid s1.id2table with
    | none => rfl
    | some w =>
      rw [hcase] at hiff
      simp at hiff
  refine ⟨?_, ?_, ?_, ?_, ?_, ?_, ?_, ?_⟩
  · intro k
    by_cases hk : k = cid
    · subst hk
      simp [alookup_insertKey_self]
    · rw [alookup_insertKey_ne _ hk, alookup_insertKey_ne _ hk]
      exact h1 k
  · intro k
    by_cases hk : k = cid
    · subst hk
      simp [alookup_insertKey_self]
    · rw [alookup_insertKey_ne _ hk, alookup_insertKey_ne _ hk]
      exact h2 k
  · intro k w hw
    by_cases hk : k = cid
    · subst hk
      rw [alookup_insertKey_self] at hw
      have hwv := Option.some_injective _ hw
      rw [← hwv]
      exact alookup_insertKey_self s1.nextView k s1.table2id
    · rw [alookup_insertKey_ne _ hk] at hw
      have hlt := h5 k w hw
      have hwv : w ≠ s1.nextView := Nat.ne_of_lt hlt
      rw [alookup_insertKey_ne _ hwv]
      exact h3 k w hw
  · intro w k hw
    by_cases hwv : w = s1.nextView
    · subst hwv
      rw [alookup_insertKey_self] at hw
      have hk := Option.some_injective _ hw
      rw [← hk]
      exact alookup_insertKey_self cid s1.nextView s1.id2table
    · rw [alookup_insertKey_ne _ hwv] at hw
      have hk2 := h4 w k hw
      have hkid : k ≠ cid := by
        intro heq
        rw [heq, habs2] at hk2
        exact absurd hk2 (by simp)
      rw [alookup_insertKey_ne _ hkid]
      exact hk2
  · intro k w hw
    by_cases hk : k = cid
    · subst hk
      rw [alookup_insertKey_self] at hw
      have hwv := Option.some_injective _ hw
      show w < s1.nextView + 1
      omega
    · rw [alookup_insertKey_ne _ hk] at hw
      have := h5 k w hw
      show w < s1.nextView + 1
      omega
  · intro x hx
    rcases List.mem_append.mp hx with hx | hx
    · have := h6 x hx
      show x < s1.nextView + 1
      omega
    · have : x = s1.nextView := by simpa using hx
      show x < s1.nextView + 1
      omega
  · show (s1.tabs ++ [s1.nextView]).Nodup
    rw [List.nodup_append]
    refine ⟨h7, by simp, ?_⟩
    intro a ha ha2
    have h1a := h6 a ha
    have h2a : a = s1.nextView := by simpa using ha2
    omega
  · intro k w hw
    by_cases hk : k = cid
    · subst hk
      rw [alookup_insertKey_self] at hw
      have hwv := Option.some_injective _ hw
      show w ∈ s1.tabs ++ [s1.nextView]
      rw [← hwv]
      simp
    · rw [alookup_insertKey_ne _ hk] at hw
      have := h8 k w hw
      show w ∈ s1.tabs ++ [s1.nextView]
      simp [this]

theorem dataset_some_spec (s : WidgetState) (hInv : WidgetInv s) (id : Nat)
    (t : Dataset) :
    ∃ s1 : WidgetState, s.dataset (some t) id = some s1 ∧ WidgetInv s1 ∧
      alookup id s1.data = some t := by
  by_cases hpres : (alookup id s.data).isSome
  · obtain ⟨v0, hv0⟩ := Option.isSome_iff_exists.mp ((hInv.2.1 id).mp hpres)
    obtain ⟨spre, hrem, hInvPre, hd, _, _, _, _, _⟩ :=
      removeConn_spec s hInv id v0 hv0
    refine ⟨_, ?_, insertConn_spec spre hInvPre id t hd,
      alookup_insertKey_self id t spre.data⟩
    unfold WidgetState.dataset
    rw [if_pos hpres, hrem]
  · have habs : alookup id s.data = none := by
      cases hcase : alookup id s.data with
      | none => rfl
      | some w =>
        rw [hcase] at hpres
        simp at hpres
    refine ⟨_, ?_, insertConn_spec s hInv id t habs,
      alookup_insertKey_self id t s.data⟩
    unfold WidgetState.dataset
    rw [if_neg hpres]

/-- C6: under the lock-step invariant, every `dataset` call succeeds (no
`KeyError`) and preserves the invariant — the four per-connection
mappings keep matching key sets with `table2id` the exact inverse of
`id2table` — and the sequence `dataset(table, X)` then `dataset(None, X)`
leaves none of the four mappings containing key X or X's view, with the
tab strip one tab shorter than after the first call. -/
theorem c6_connection_lockstep (s : WidgetState) (hInv : WidgetInv s) :
    (∀ (d : Option Dataset) (id : Nat), ∃ s2 : WidgetState,
      s.dataset d id = some s2 ∧ WidgetInv s2) ∧
    (∀ (id : Nat) (t : Dataset), ∃ s1 s2 : WidgetState, ∃ v : Nat,
      s.dataset (some t) id = some s1 ∧
      alookup id s1.id2table = some v ∧
      s1.dataset none id = some s2 ∧
      alookup id s2.data = none ∧
      alookup id s2.showMetas = none ∧
      alookup id s2.id2table = none ∧
      alookup v s2.table2id = none ∧
      v ∉ s2.tabs ∧
      s2.tabs.length + 1 = s1.tabs.length) := by
  constructor
  · intro d id
    cases d with
    | some t =>
      obtain ⟨s1, hds, hInv1, _⟩ := dataset_some_spec s hInv id t
      exact ⟨s1, hds, hInv1⟩
    | none =>
      by_cases hpres : (alookup id s.data).isSome
      · obtain ⟨v0, hv0⟩ := Option.isSome_iff_exists.mp ((hInv.2.1 id).mp hpres)
        obtain ⟨s2, hrem, hInv2, _⟩ := removeConn_spec s hInv id v0 hv0
        refine ⟨s2, ?_, hInv2⟩
        unfold WidgetState.dataset
        rw [if_pos hpres]
        exact hrem
      · refine ⟨s, ?_, hInv⟩
        unfold WidgetState.dataset
        rw [if_neg hpres]
  · intro id t
    obtain ⟨s1, hds1, hInv1, hd1⟩ := dataset_some_spec s hInv id t
    have hpres1 : (alookup id s1.data).isSome := by rw [hd1]; rfl
    obtain ⟨v, hv⟩ := Option.isSome_iff_exists.mp ((hInv1.2.1 id).mp hpres1)
    have hvmem : v ∈ s1.tabs := hInv1.2.2.2.2.2.2.2 id v hv
    obtain ⟨s2, hrem, hInv2, ha, hb, hc, hd, hnm, htabs⟩ :=
      removeConn_spec s1 hInv1 id v hv
    refine ⟨s1, s2, v, hds1, hv, ?_, ha, hb, hc, hd, hnm, ?_⟩
    · unfold WidgetState.dataset
      rw [if_pos hpres1]
      exact hrem
    · rw [htabs, List.length_erase_of_mem hvmem]
      have := List.length_pos_of_mem hvmem
      omega

/-- C6 witness: the theorem's two-call clause evaluated from the empty
widget state at connection id 0 with an empty dataset. -/
theorem c6_witness :
    ∃ s1 s2 : WidgetState, ∃ v : Nat,
      emptyWidget.dataset (some []) 0 = some s1 ∧
      alookup 0 s1.id2table = some v ∧
      s1.dataset none 0 = some s2 ∧
      alookup 0 s2.data = none ∧
      alookup 0 s2.showMetas = none ∧
      alookup 0 s2.id2table = none ∧
      alookup v s2.table2id = none ∧
      v ∉ s2.tabs ∧
      s2.tabs.length + 1 = s1.tabs.length := by
  have hInv : WidgetInv emptyWidget := by
    refine ⟨?_, ?_, ?_, ?_, ?_, ?_, ?_, ?_⟩ <;>
      simp [alookup, emptyWidget]
  exact (c6_connection_lockstep emptyWidget hInv).2 0 []

/-- C9 witness: the theorem evaluated at an empty and at a five-row
dataset. -/
theorem c9_witness :
    missPercent 0 7 = 0 ∧ missPercent 5 2 * 5 = 100 * 2 := by
  refine ⟨c9_missing_percentage_guard.1 7, ?_⟩
  have h := c9_missing_percentage_guard.2.2 5 2 (by decide)
  simpa using h

end OWDataTable
